import Mathlib

/-!
Verification of the TravelWise core subsystems against their specification.

The development shallowly embeds the two subsystems the spec covers:

* `destinationMatcher.js` (MatchEngine): the Levenshtein DP, the
  normalized similarity, `findBestMatch` and `getDestinationSuggestions`
  over the static `destinationsDB` table; and
* `useFetch.js` (FetchCache): the cache key, the module-level cache, and
  the per-session fetch life cycle (`fetchNow`'s synchronous part and its
  success/failure continuations), with the generation counter
  `fetchToken`.

JS numbers appearing in similarity scores are modelled as `ℚ`; JS strings
as Lean `String`; the `Map` cache as an association list; JS `undefined`
fields as `Option`.
-/

set_option maxHeartbeats 1600000

namespace TravelWise

/-! ## MatchEngine: edit distance and similarity -/

/-- Unit cost of substituting `y` for `x`: the `indicator` expression
`str1[i-1] === str2[j-1] ? 0 : 1` of the source DP. -/
def subCost (x y : Char) : Nat := if x = y then 0 else 1

/-- The reference definition the spec appeals to: classic unit-cost
Levenshtein distance via single-character insertion, deletion and
substitution.  This is the spec-side definition; the source's DP
(`levenshteinDistance` below) is proved equal to it. -/
def editDistance : List Char → List Char → Nat
  | [], ys => ys.length
  | x :: xs, [] => (x :: xs).length
  | x :: xs, y :: ys =>
    min (editDistance xs (y :: ys) + 1)
      (min (editDistance (x :: xs) ys + 1)
        (editDistance xs ys + subCost x y))
termination_by xs ys => xs.length + ys.length
decreasing_by all_goals simp +arith

/-- One row of the source's DP matrix: `levRow s1 prevRow yc r i` is
`matrix[r][i]` where `prevRow` is row `r-1` and `yc = str2[r-1]`.
The three `min` arguments are the source's deletion, insertion and
substitution entries `matrix[j][i-1]+1`, `matrix[j-1][i]+1`,
`matrix[j-1][i-1]+indicator`. -/
def levRow (s1 : List Char) (prevRow : Nat → Nat) (yc : Char) (r : Nat) : Nat → Nat
  | 0 => r
  | i + 1 =>
    min (levRow s1 prevRow yc r i + 1)
      (min (prevRow (i + 1) + 1)
        (prevRow i + subCost (s1.getD i 'a') yc))

/-- The full DP matrix of the source's `levenshteinDistance`:
`levMatrix s1 s2 j i = matrix[j][i]`, with `matrix[0][i] = i` and
`matrix[j][0] = j`. -/
def levMatrix (s1 s2 : List Char) : Nat → Nat → Nat
  | 0 => fun i => i
  | j + 1 => levRow s1 (levMatrix s1 s2 j) (s2.getD j 'a') (j + 1)

/-- `levenshteinDistance(str1, str2)` of the source: the DP matrix entry
`matrix[str2.length][str1.length]`. -/
def levenshteinDistance (s1 s2 : List Char) : Nat :=
  levMatrix s1 s2 s2.length s1.length

/-- Model of JS `String.prototype.toLowerCase` on the basic-latin strings
the table and queries use. -/
def jsToLower (s : String) : String := ⟨s.data.map Char.toLower⟩

/-- Model of JS `String.prototype.trim`: strip whitespace from both ends. -/
def jsTrim (s : String) : String :=
  ⟨((s.data.dropWhile Char.isWhitespace).reverse.dropWhile Char.isWhitespace).reverse⟩

/-- `calculateSimilarity(str1, str2)` of the source: normalized distance
`1 - distance / maxLength`, where `maxLength` is taken on the original
strings and the distance on their lower-cased forms; `1` when both are
empty. -/
def calculateSimilarity (str1 str2 : String) : ℚ :=
  let maxLength := max str1.length str2.length
  if maxLength = 0 then 1
  else
    let distance := levenshteinDistance (jsToLower str1).data (jsToLower str2).data
    1 - (distance : ℚ) / (maxLength : ℚ)

/-! ## MatchEngine: the reference table and queries -/

/-- A `PlaceRecord` of the reference table. -/
structure Destination where
  name : String
  country : String
  variations : List String
deriving DecidableEq

/-- A suggestion produced by `findBestMatch`. -/
structure Suggestion where
  name : String
  country : String
  similarity : ℚ
  matchedVariation : String
deriving DecidableEq

/-- A suggestion produced by `getDestinationSuggestions` (no
`matchedVariation` field in the source object literal). -/
structure AutoSuggestion where
  name : String
  country : String
  similarity : ℚ
deriving DecidableEq

/-- The result object of `findBestMatch`.  The exact-match fast path of
the source returns an object without the `hasGoodMatch` property, so the
field is modelled as `Option Bool` (`none` = property absent). -/
structure MatchResult where
  destination : Option String
  confidence : ℚ
  isExact : Bool
  suggestions : List Suggestion
  hasGoodMatch : Option Bool
deriving DecidableEq

/-- `destinationsDB` of the source, verbatim. -/
def destinationsDB : List Destination := [
  ⟨"Paris", "France", ["paris", "pariis", "pariz", "parris", "pariss", "parise", "paries"]⟩,
  ⟨"Tokyo", "Japan", ["tokyo", "tokio", "tokoyo", "tokiyo", "tokyio", "toquio", "tokyo"]⟩,
  ⟨"London", "United Kingdom", ["london", "londan", "londin", "londun", "londn", "londen", "lundun"]⟩,
  ⟨"New York", "United States", ["new york", "newyork", "ny", "nyc", "new yourk", "newyourk", "nu york"]⟩,
  ⟨"Dubai", "United Arab Emirates", ["dubai", "dubay", "dubia", "dubi", "dubaii", "dubae", "doobai"]⟩,
  ⟨"Sydney", "Australia", ["sydney", "sidny", "sidnay", "sydny", "cidney", "sydnee", "sydnie"]⟩,
  ⟨"Barcelona", "Spain", ["barcelona", "barcellona", "barselona", "barcalona", "barcelon", "barselona"]⟩,
  ⟨"Amsterdam", "Netherlands", ["amsterdam", "amstardam", "amstardm", "amsterdm", "amstredam", "amsterdamm"]⟩,
  ⟨"Rome", "Italy", ["rome", "roma", "roome", "rom", "roam", "roem"]⟩,
  ⟨"Berlin", "Germany", ["berlin", "berln", "berlin", "berline", "belin", "birlin"]⟩,
  ⟨"Prague", "Czech Republic", ["prague", "prag", "praga", "praag", "pragua", "praque", "prauge"]⟩,
  ⟨"Vienna", "Austria", ["vienna", "viena", "wein", "vien", "veinna", "vianna", "vieena"]⟩,
  ⟨"Bangkok", "Thailand", ["bangkok", "bangcock", "bangkock", "bangok", "bankok", "bangkol"]⟩,
  ⟨"Istanbul", "Turkey", ["istanbul", "istambul", "istanbol", "istanbull", "istambol", "constantinople"]⟩,
  ⟨"Cairo", "Egypt", ["cairo", "cayro", "caeiro", "kairo", "cyro", "cario"]⟩,
  ⟨"Mumbai", "India", ["mumbai", "bombay", "mumbay", "mumbae", "mumbaii", "mumby"]⟩,
  ⟨"Singapore", "Singapore", ["singapore", "singapur", "singapoor", "singapoore", "singapre", "singpore"]⟩,
  ⟨"Los Angeles", "United States", ["los angeles", "losangeles", "la", "los angelos", "los angelis", "l.a."]⟩,
  ⟨"Hong Kong", "China", ["hong kong", "hongkong", "hk", "hong cong", "hong konk", "hongkong"]⟩,
  ⟨"Seoul", "South Korea", ["seoul", "seul", "soeul", "seoul", "seole", "suel"]⟩]

/-- Mutable loop state of `findBestMatch`: `bestMatch`, `bestScore` and
the `suggestions` array. -/
structure ScanAcc where
  bestMatch : Option String
  bestScore : ℚ
  suggestions : List Suggestion
deriving DecidableEq

/-- The inner `for (const variation of destination.variations)` loop of
`findBestMatch`: update `bestMatch`/`bestScore` and push suggestion
candidates with `threshold ≤ similarity < 1`. -/
def scanVariations (q : String) (threshold : ℚ) (d : Destination)
    (acc : ScanAcc) : List String → ScanAcc
  | [] => acc
  | v :: vs =>
    let sim := calculateSimilarity q v
    let acc1 := if acc.bestScore < sim then
        { acc with bestMatch := some d.name, bestScore := sim } else acc
    let acc2 := if threshold ≤ sim ∧ sim < 1 then
        { acc1 with suggestions := acc1.suggestions ++ [⟨d.name, d.country, sim, v⟩] } else acc1
    scanVariations q threshold d acc2 vs

/-- The stable descending-similarity sort the source performs with
`suggestions.sort((a, b) => b.similarity - a.similarity)`; JS `sort` is
stable, so it is modelled by the stable `insertionSort`. -/
def sortBySimilarity (l : List Suggestion) : List Suggestion :=
  l.insertionSort (fun a b => b.similarity ≤ a.similarity)

/-- Model of the duplicate-removal idiom
`filter((item, index, self) => index === self.findIndex(t => t.name === item.name))`:
keep exactly the first occurrence of each name. -/
def dedupBySeen {α : Type} (nameOf : α → String) (seen : List String) :
    List α → List α
  | [] => []
  | s :: rest =>
    if nameOf s ∈ seen then dedupBySeen nameOf seen rest
    else s :: dedupBySeen nameOf (nameOf s :: seen) rest

/-- The outer `for (const destination of destinationsDB)` loop of
`findBestMatch`, with the early-returning exact check and the final
sort/dedup/slice assembly. -/
def findBestMatchGo (q : String) (threshold : ℚ) (acc : ScanAcc) :
    List Destination → MatchResult
  | [] =>
    let uniqueSuggestions :=
      (dedupBySeen Suggestion.name [] (sortBySimilarity acc.suggestions)).take 3
    { destination := acc.bestMatch, confidence := acc.bestScore, isExact := false,
      suggestions := uniqueSuggestions,
      hasGoodMatch := some (decide (threshold ≤ acc.bestScore)) }
  | d :: rest =>
    if q ∈ d.variations then
      { destination := some d.name, confidence := 1, isExact := true,
        suggestions := [], hasGoodMatch := none }
    else
      findBestMatchGo q threshold (scanVariations q threshold d acc d.variations) rest

/-- `findBestMatch(query, threshold = 0.6)` of the source. -/
def findBestMatch (query : String) (threshold : ℚ := 6/10) : MatchResult :=
  let queryLower := jsTrim (jsToLower query)
  findBestMatchGo queryLower threshold ⟨none, 0, []⟩ destinationsDB

/-- Model of JS `String.prototype.includes`: `hasSubstring v q` is true
iff `q` occurs contiguously in `v`. -/
def hasSubstring : List Char → List Char → Bool
  | v, q =>
    match v with
    | [] => q.isEmpty
    | _ :: t => q.isPrefixOf v || hasSubstring t q

/-- The record scan of `getDestinationSuggestions`: for each destination,
the first variation that starts with or contains the query yields one
suggestion (the `break` makes it at most one per record). -/
def getSuggestionsGo (q : String) : List Destination → List AutoSuggestion
  | [] => []
  | d :: rest =>
    match d.variations.find? (fun v => q.data.isPrefixOf v.data || hasSubstring v.data q.data) with
    | some v => ⟨d.name, d.country, calculateSimilarity q v⟩ :: getSuggestionsGo q rest
    | none => getSuggestionsGo q rest

/-- The stable descending sort on `AutoSuggestion`s. -/
def sortAutoBySimilarity (l : List AutoSuggestion) : List AutoSuggestion :=
  l.insertionSort (fun a b => b.similarity ≤ a.similarity)

/-- `getDestinationSuggestions(query, limit = 5)` of the source. -/
def getDestinationSuggestions (query : String) (limit : Nat := 5) : List AutoSuggestion :=
  let queryLower := jsTrim (jsToLower query)
  if queryLower.length < 2 then []
  else
    let suggestions := getSuggestionsGo queryLower destinationsDB
    (sortAutoBySimilarity (dedupBySeen AutoSuggestion.name [] suggestions)).take limit

/-- Descending-similarity comparison on `Suggestion`s is total. -/
instance : IsTotal Suggestion (fun a b => b.similarity ≤ a.similarity) :=
  ⟨fun a b => le_total b.similarity a.similarity⟩

/-- Descending-similarity comparison on `Suggestion`s is transitive. -/
instance : IsTrans Suggestion (fun a b => b.similarity ≤ a.similarity) :=
  ⟨fun _ _ _ h1 h2 => le_trans h2 h1⟩

/-- Descending-similarity comparison on `AutoSuggestion`s is total. -/
instance : IsTotal AutoSuggestion (fun a b => b.similarity ≤ a.similarity) :=
  ⟨fun a b => le_total b.similarity a.similarity⟩

/-- Descending-similarity comparison on `AutoSuggestion`s is transitive. -/
instance : IsTrans AutoSuggestion (fun a b => b.similarity ≤ a.similarity) :=
  ⟨fun _ _ _ h1 h2 => le_trans h2 h1⟩

/-! ## FetchCache: key derivation -/

/-- The recognized request-configuration options of the resolve contract
(`{method, headers, body, staleness-override}`); absent JS properties are
`none`. -/
structure FetchOptions where
  method : Option String := none
  headers : Option String := none
  body : Option String := none
  ttl : Option Nat := none
deriving DecidableEq

/-- JSON escaping of one character inside a string literal (quote and
backslash; other characters of the option values pass through). -/
def escapeChar (c : Char) : List Char :=
  if c = '"' then ['\\', '"'] else if c = '\\' then ['\\', '\\'] else [c]

/-- JSON escaping of a whole string body. -/
def escapeString : List Char → List Char
  | [] => []
  | c :: cs => escapeChar c ++ escapeString cs

/-- A JSON string literal: `"..."` with escaped body. -/
def quoteJson (s : String) : List Char := '"' :: (escapeString s.data ++ ['"'])

/-- Decimal rendering of a JSON number (the `ttl` option). -/
def renderNat (n : Nat) : List Char :=
  if n = 0 then ['0']
  else (Nat.digits 10 n).reverse.map fun d => Char.ofNat (48 + d)

/-- A present field renders as `"name":value`; an absent one contributes
nothing (JSON.stringify drops `undefined` properties). -/
def renderField (name : String) (val : Option (List Char)) : List (List Char) :=
  match val with
  | none => []
  | some v => [('"' :: name.data) ++ ('"' :: ':' :: v)]

/-- Comma-separated concatenation of the rendered fields. -/
def joinComma : List (List Char) → List Char
  | [] => []
  | [f] => f
  | f :: g :: rest => f ++ ',' :: joinComma (g :: rest)

/-- Model of `JSON.stringify(options)` for the recognized options:
fields in declaration order, `undefined` fields dropped. -/
def stringifyOptions (o : FetchOptions) : List Char :=
  '\x7b' :: (joinComma (
      renderField "method" (o.method.map quoteJson) ++
      renderField "headers" (o.headers.map quoteJson) ++
      renderField "body" (o.body.map quoteJson) ++
      renderField "ttl" (o.ttl.map renderNat)) ++ ['\x7d'])

/-- The key string `` `${url}|${optionsString}` `` of the source. -/
def keyString (url : String) (o : FetchOptions) : String :=
  ⟨url.data ++ '|' :: stringifyOptions o⟩

/-- `const key = url ? `${url}|${optionsString}` : null` of the source. -/
def mkKey (url : String) (o : FetchOptions) : Option String :=
  if url = "" then none else some (keyString url o)

/-! ## FetchCache: cache and session state -/

/-- A cache entry `{ data, timestamp }`. -/
structure CacheEntry where
  payload : String
  timestamp : Nat
deriving DecidableEq

/-- The module-scoped `Map` cache, as an association list in which the
most recent binding of a key shadows older ones. -/
def Cache := List (String × CacheEntry)

/-- `cache.get(key)` / `cache.has(key)`. -/
def cacheLookup : Cache → String → Option CacheEntry
  | [], _ => none
  | (k, e) :: rest, key => if k = key then some e else cacheLookup rest key

/-- `cache.set(key, entry)` (insert-or-replace). -/
def cacheInsert (c : Cache) (key : String) (e : CacheEntry) : Cache :=
  (key, e) :: c

/-- `cache.delete(key)`. -/
def cacheDelete (c : Cache) (key : String) : Cache :=
  c.filter fun p => p.1 ≠ key

/-- Per-consumer session state: the visible `{data, loading, error}` plus
the `fetchToken` generation counter ref. -/
structure Session where
  data : Option String
  loading : Bool
  error : Option String
  fetchToken : Nat
deriving DecidableEq

/-- `options.ttl || 5 * 60 * 1000` (JS `||`: `0` and `undefined` both
fall back to the default). -/
def jsTtl (o : FetchOptions) : Nat :=
  match o.ttl with
  | some t => if t = 0 then 5 * 60 * 1000 else t
  | none => 5 * 60 * 1000

/-- The synchronous part of `fetchNow`: bail out on empty url, allocate
the next generation (`++fetchToken.current`), serve a fresh cache entry
synchronously (leaving `error` untouched), or set `loading`/clear
`error` and issue the network request.  The second component is the
generation of the issued request (`none` = no network call). -/
def fetchStart (c : Cache) (url : String) (o : FetchOptions) (now : Nat)
    (s : Session) : Session × Option Nat :=
  match mkKey url o with
  | none => (s, none)
  | some key =>
    let currentToken := s.fetchToken + 1
    let s1 : Session := { s with fetchToken := currentToken }
    match cacheLookup c key with
    | some entry =>
      if now - entry.timestamp < jsTtl o then
        ({ s1 with data := some entry.payload, loading := false }, none)
      else
        ({ s1 with loading := true, error := none }, some currentToken)
    | none => ({ s1 with loading := true, error := none }, some currentToken)

/-- The success continuation of `fetchNow`: store the entry in the cache
unconditionally, then apply `data` and clear `loading` only if
`fetchToken.current === currentToken`. -/
def applySuccess (c : Cache) (s : Session) (tok : Nat) (payload : String)
    (key : String) (now : Nat) : Cache × Session :=
  (cacheInsert c key ⟨payload, now⟩,
   { s with
      data := if s.fetchToken = tok then some payload else s.data,
      loading := if s.fetchToken = tok then false else s.loading })

/-- The failure continuation of `fetchNow`: `AbortError`s are ignored,
any other error message is surfaced unconditionally, and `loading` is
cleared only if `fetchToken.current === currentToken`. -/
def applyFailure (s : Session) (tok : Nat) (isAbort : Bool) (msg : String) : Session :=
  { s with
      error := if isAbort then s.error else some msg,
      loading := if s.fetchToken = tok then false else s.loading }

/-- `refetch()`'s cache effect: invalidate the current key (the effect
re-run that follows is the framework's, modelled by a subsequent
`fetchStart`). -/
def refetchInvalidate (c : Cache) (url : String) (o : FetchOptions) : Cache :=
  match mkKey url o with
  | none => c
  | some key => cacheDelete c key

/-! ## Key-derivation proof devices -/

/-- Scanner for a JSON string literal body: consumes an escaped body up
to its closing quote, returning the unescaped body and the rest of the
input.  Left inverse of `escapeString`, used to show key derivation is
unambiguous. -/
def unquote : List Char → Option (List Char × List Char)
  | [] => none
  | c :: rest =>
    if c = '\\' then
      match rest with
      | [] => none
      | c' :: rest' => (unquote rest').map fun br => (c' :: br.1, br.2)
    else if c = '"' then some ([], rest)
    else (unquote rest).map fun br => (c :: br.1, br.2)

/-- What a field list contributes after a preceding field: nothing when
empty, otherwise a comma and the joined fields. -/
def commaTail (fs : List (List Char)) : List Char :=
  match fs with
  | [] => []
  | _ :: _ => ',' :: joinComma fs

/-- The digit list a number renders from: `digits` most-significant
first, with `0` rendering as the single digit `0`. -/
def padDigits (n : Nat) : List Nat :=
  if n = 0 then [0] else (Nat.digits 10 n).reverse

/-- The rendered `body` and `ttl` fields. -/
def fieldsBT (b : Option String) (t : Option Nat) : List (List Char) :=
  renderField "body" (b.map quoteJson) ++ renderField "ttl" (t.map renderNat)

/-- The rendered `headers`, `body` and `ttl` fields. -/
def fieldsHBT (hd b : Option String) (t : Option Nat) : List (List Char) :=
  renderField "headers" (hd.map quoteJson) ++ fieldsBT b t

/-- All four rendered fields of a `FetchOptions`. -/
def fieldsMHBT (m hd b : Option String) (t : Option Nat) : List (List Char) :=
  renderField "method" (m.map quoteJson) ++ fieldsHBT hd b t

/-! ## Helper lemmas -/

theorem joinComma_cons (f : List Char) (fs : List (List Char)) :
    joinComma (f :: fs) = f ++ commaTail fs := by
  cases fs <;> simp [joinComma, commaTail]

theorem unquote_quote (t : List Char) : unquote ('"' :: t) = some ([], t) := by
  rw [unquote.eq_def]
  simp [(by decide : ¬ ('"' : Char) = '\\')]

theorem unquote_other (l : List Char) (c : Char) (h1 : ¬ c = '"') (h2 : ¬ c = '\\') :
    unquote (c :: l) = (unquote l).map fun br => (c :: br.1, br.2) := by
  rw [unquote.eq_def]
  simp [h1, h2]

theorem unquote_esc (l : List Char) (c : Char) :
    unquote ('\\' :: c :: l) = (unquote l).map fun br => (c :: br.1, br.2) := by
  rw [unquote.eq_def]
  simp

theorem unquote_escape (s t : List Char) :
    unquote (escapeString s ++ '"' :: t) = some (s, t) := by
  induction s with
  | nil => simpa [escapeString] using unquote_quote t
  | cons c cs ih =>
    by_cases h1 : c = '"'
    · simp [escapeString, escapeChar, h1, unquote_esc, ih]
    · by_cases h2 : c = '\\'
      · simp [escapeString, escapeChar, h1, h2, unquote_esc, ih]
      · simp [escapeString, escapeChar, h1, h2, unquote_other _ c h1 h2, ih]

theorem quoted_seg_inj {s1 s2 t1 t2 : List Char}
    (h : escapeString s1 ++ '"' :: t1 = escapeString s2 ++ '"' :: t2) :
    s1 = s2 ∧ t1 = t2 := by
  have h1 := unquote_escape s1 t1
  rw [h, unquote_escape s2 t2] at h1
  simpa [eq_comm] using h1

theorem padDigits_lt (n : Nat) : ∀ d ∈ padDigits n, d < 10 := by
  intro d hd
  unfold padDigits at hd
  split at hd
  · simp at hd; omega
  · exact Nat.digits_lt_base (by norm_num) (List.mem_reverse.mp hd)

theorem padDigits_inj {m n : Nat} (h : padDigits m = padDigits n) : m = n := by
  by_cases hm : m = 0 <;> by_cases hn : n = 0
  · omega
  · unfold padDigits at h
    rw [if_pos hm, if_neg hn] at h
    have hd : Nat.digits 10 n = [0] := by
      have := congrArg List.reverse h
      simpa using this.symm
    have h2 := Nat.ofDigits_digits 10 n
    rw [hd] at h2
    simp [Nat.ofDigits] at h2
    omega
  · unfold padDigits at h
    rw [if_neg hm, if_pos hn] at h
    have hd : Nat.digits 10 m = [0] := by
      have := congrArg List.reverse h
      simpa using this
    have h2 := Nat.ofDigits_digits 10 m
    rw [hd] at h2
    simp [Nat.ofDigits] at h2
    omega
  · unfold padDigits at h
    rw [if_neg hm, if_neg hn] at h
    have hd : Nat.digits 10 m = Nat.digits 10 n := by
      have := congrArg List.reverse h
      simpa using this
    have hm' := Nat.ofDigits_digits 10 m
    rw [hd, Nat.ofDigits_digits] at hm'
    omega

theorem digit_map_inj : ∀ l1 l2 : List Nat, (∀ d ∈ l1, d < 10) → (∀ d ∈ l2, d < 10) →
    l1.map (fun d => Char.ofNat (48 + d)) = l2.map (fun d => Char.ofNat (48 + d)) →
    l1 = l2 := by
  have key : ∀ d1, d1 < 10 → ∀ d2, d2 < 10 →
      Char.ofNat (48 + d1) = Char.ofNat (48 + d2) → d1 = d2 := by decide
  intro l1
  induction l1 with
  | nil => intro l2 _ _ h; cases l2 <;> simp_all
  | cons d l ih =>
    intro l2 h1 h2 h
    cases l2 with
    | nil => simp at h
    | cons d' l' =>
      simp only [List.map_cons, List.cons.injEq] at h
      have hd : d = d' := key d (h1 d (by simp)) d' (h2 d' (by simp)) h.1
      have := ih l' (fun x hx => h1 x (by simp [hx])) (fun x hx => h2 x (by simp [hx])) h.2
      simp [hd, this]

theorem renderNat_eq_map (n : Nat) :
    renderNat n = (padDigits n).map fun d => Char.ofNat (48 + d) := by
  by_cases hn : n = 0
  · subst hn; rfl
  · simp [renderNat, padDigits, hn, List.map_reverse]

theorem renderNat_inj {m n : Nat} (h : renderNat m = renderNat n) : m = n := by
  rw [renderNat_eq_map, renderNat_eq_map] at h
  exact padDigits_inj (digit_map_inj _ _ (padDigits_lt m) (padDigits_lt n) h)

theorem joinComma_nil : joinComma [] = [] := rfl

theorem method_data : ("method".data : List Char) = ['m', 'e', 't', 'h', 'o', 'd'] := rfl

theorem headers_data : ("headers".data : List Char) = ['h', 'e', 'a', 'd', 'e', 'r', 's'] := rfl

theorem body_data : ("body".data : List Char) = ['b', 'o', 'd', 'y'] := rfl

theorem ttl_data : ("ttl".data : List Char) = ['t', 't', 'l'] := rfl

theorem commaTail_cases {fs1 fs2 : List (List Char)}
    (h : commaTail fs1 ++ ['\x7d'] = commaTail fs2 ++ ['\x7d']) :
    (fs1 = [] ∧ fs2 = []) ∨ (joinComma fs1 ++ ['\x7d'] = joinComma fs2 ++ ['\x7d']) := by
  cases fs1 with
  | nil =>
    cases fs2 with
    | nil => exact Or.inl ⟨rfl, rfl⟩
    | cons f fs => exact absurd h (by simp [commaTail])
  | cons f fs =>
    cases fs2 with
    | nil => exact absurd h (by simp [commaTail])
    | cons g gs => exact Or.inr (by simpa [commaTail] using h)

theorem renderField_eq_nil {name : String} {v : Option (List Char)}
    (h : renderField name v = []) : v = none := by
  cases v <;> simp [renderField] at h ⊢

theorem fieldsBT_eq_nil {b : Option String} {t : Option Nat}
    (h : fieldsBT b t = []) : b = none ∧ t = none := by
  cases b <;> cases t <;> simp [fieldsBT, renderField] at h ⊢

theorem fieldsHBT_eq_nil {hd b : Option String} {t : Option Nat}
    (h : fieldsHBT hd b t = []) : hd = none ∧ b = none ∧ t = none := by
  cases hd <;> cases b <;> cases t <;> simp [fieldsHBT, fieldsBT, renderField] at h ⊢

theorem ttl_field_inj {t1 t2 : Option Nat}
    (h : joinComma (renderField "ttl" (t1.map renderNat)) ++ ['\x7d'] =
         joinComma (renderField "ttl" (t2.map renderNat)) ++ ['\x7d']) : t1 = t2 := by
  cases t1 with
  | none =>
    cases t2 with
    | none => rfl
    | some n => exact absurd h (by simp [renderField, joinComma_nil, joinComma_cons, commaTail, ttl_data])
  | some m =>
    cases t2 with
    | none => exact absurd h (by simp [renderField, joinComma_nil, joinComma_cons, commaTail, ttl_data])
    | some n =>
      simp [renderField, joinComma_cons, commaTail, ttl_data] at h
      exact congrArg some (renderNat_inj h)

theorem fieldsBT_inj {b1 b2 : Option String} {t1 t2 : Option Nat}
    (h : joinComma (fieldsBT b1 t1) ++ ['\x7d'] = joinComma (fieldsBT b2 t2) ++ ['\x7d']) :
    b1 = b2 ∧ t1 = t2 := by
  cases b1 with
  | none =>
    cases b2 with
    | none => exact ⟨rfl, ttl_field_inj h⟩
    | some s2 =>
      exfalso
      cases t1 <;> cases t2 <;>
        simp [fieldsBT, renderField, joinComma_nil, joinComma_cons, commaTail,
          quoteJson, body_data, ttl_data] at h
  | some s1 =>
    cases b2 with
    | none =>
      exfalso
      cases t1 <;> cases t2 <;>
        simp [fieldsBT, renderField, joinComma_nil, joinComma_cons, commaTail,
          quoteJson, body_data, ttl_data] at h
    | some s2 =>
      rw [show fieldsBT (some s1) t1 =
            (('"' :: "body".data) ++ ('"' :: ':' :: quoteJson s1)) :: renderField "ttl" (t1.map renderNat) from rfl,
          show fieldsBT (some s2) t2 =
            (('"' :: "body".data) ++ ('"' :: ':' :: quoteJson s2)) :: renderField "ttl" (t2.map renderNat) from rfl,
          joinComma_cons, joinComma_cons] at h
      simp only [quoteJson, body_data, List.cons_append, List.nil_append,
        List.singleton_append, List.append_assoc, List.cons.injEq, true_and] at h
      obtain ⟨hs, ht⟩ := quoted_seg_inj h
      refine ⟨by rw [String.ext hs], ?_⟩
      rcases commaTail_cases ht with ⟨e1, e2⟩ | hjc
      · have n1 := renderField_eq_nil e1
        have n2 := renderField_eq_nil e2
        simp at n1 n2
        rw [n1, n2]
      · exact ttl_field_inj hjc

theorem fieldsHBT_inj {hd1 hd2 b1 b2 : Option String} {t1 t2 : Option Nat}
    (h : joinComma (fieldsHBT hd1 b1 t1) ++ ['\x7d'] = joinComma (fieldsHBT hd2 b2 t2) ++ ['\x7d']) :
    hd1 = hd2 ∧ b1 = b2 ∧ t1 = t2 := by
  cases hd1 with
  | none =>
    cases hd2 with
    | none => exact ⟨rfl, fieldsBT_inj h⟩
    | some s2 =>
      exfalso
      cases b1 <;> cases t1 <;>
        simp [fieldsHBT, fieldsBT, renderField, joinComma_nil, joinComma_cons, commaTail,
          quoteJson, headers_data, body_data, ttl_data] at h
  | some s1 =>
    cases hd2 with
    | none =>
      exfalso
      cases b2 <;> cases t2 <;>
        simp [fieldsHBT, fieldsBT, renderField, joinComma_nil, joinComma_cons, commaTail,
          quoteJson, headers_data, body_data, ttl_data] at h
    | some s2 =>
      rw [show fieldsHBT (some s1) b1 t1 =
            (('"' :: "headers".data) ++ ('"' :: ':' :: quoteJson s1)) :: fieldsBT b1 t1 from rfl,
          show fieldsHBT (some s2) b2 t2 =
            (('"' :: "headers".data) ++ ('"' :: ':' :: quoteJson s2)) :: fieldsBT b2 t2 from rfl,
          joinComma_cons, joinComma_cons] at h
      simp only [quoteJson, headers_data, List.cons_append, List.nil_append,
        List.singleton_append, List.append_assoc, List.cons.injEq, true_and] at h
      obtain ⟨hs, ht⟩ := quoted_seg_inj h
      refine ⟨by rw [String.ext hs], ?_⟩
      rcases commaTail_cases ht with ⟨e1, e2⟩ | hjc
      · obtain ⟨n1, n1'⟩ := fieldsBT_eq_nil e1
        obtain ⟨n2, n2'⟩ := fieldsBT_eq_nil e2
        rw [n1, n1', n2, n2']
        exact ⟨rfl, rfl⟩
      · exact fieldsBT_inj hjc

theorem fieldsMHBT_inj {m1 m2 hd1 hd2 b1 b2 : Option String} {t1 t2 : Option Nat}
    (h : joinComma (fieldsMHBT m1 hd1 b1 t1) ++ ['\x7d'] =
         joinComma (fieldsMHBT m2 hd2 b2 t2) ++ ['\x7d']) :
    m1 = m2 ∧ hd1 = hd2 ∧ b1 = b2 ∧ t1 = t2 := by
  cases m1 with
  | none =>
    cases m2 with
    | none => exact ⟨rfl, fieldsHBT_inj h⟩
    | some s2 =>
      exfalso
      cases hd1 <;> cases b1 <;> cases t1 <;>
        simp [fieldsMHBT, fieldsHBT, fieldsBT, renderField, joinComma_nil, joinComma_cons,
          commaTail, quoteJson, method_data, headers_data, body_data, ttl_data] at h
  | some s1 =>
    cases m2 with
    | none =>
      exfalso
      cases hd2 <;> cases b2 <;> cases t2 <;>
        simp [fieldsMHBT, fieldsHBT, fieldsBT, renderField, joinComma_nil, joinComma_cons,
          commaTail, quoteJson, method_data, headers_data, body_data, ttl_data] at h
    | some s2 =>
      rw [show fieldsMHBT (some s1) hd1 b1 t1 =
            (('"' :: "method".data) ++ ('"' :: ':' :: quoteJson s1)) :: fieldsHBT hd1 b1 t1 from rfl,
          show fieldsMHBT (some s2) hd2 b2 t2 =
            (('"' :: "method".data) ++ ('"' :: ':' :: quoteJson s2)) :: fieldsHBT hd2 b2 t2 from rfl,
          joinComma_cons, joinComma_cons] at h
      simp only [quoteJson, method_data, List.cons_append, List.nil_append,
        List.singleton_append, List.append_assoc, List.cons.injEq, true_and] at h
      obtain ⟨hs, ht⟩ := quoted_seg_inj h
      refine ⟨by rw [String.ext hs], ?_⟩
      rcases commaTail_cases ht with ⟨e1, e2⟩ | hjc
      · obtain ⟨n1, n1', n1''⟩ := fieldsHBT_eq_nil e1
        obtain ⟨n2, n2', n2''⟩ := fieldsHBT_eq_nil e2
        rw [n1, n1', n1'', n2, n2', n2'']
        exact ⟨rfl, rfl, rfl⟩
      · exact fieldsHBT_inj hjc

theorem stringifyOptions_inj {o1 o2 : FetchOptions}
    (h : stringifyOptions o1 = stringifyOptions o2) : o1 = o2 := by
  obtain ⟨m1, hd1, b1, t1⟩ := o1
  obtain ⟨m2, hd2, b2, t2⟩ := o2
  have h' : joinComma (fieldsMHBT m1 hd1 b1 t1) ++ ['\x7d'] =
      joinComma (fieldsMHBT m2 hd2 b2 t2) ++ ['\x7d'] := by
    have h2 := h
    simp only [stringifyOptions, fieldsMHBT, fieldsHBT, fieldsBT,
      List.append_assoc, List.cons.injEq, true_and] at h2
    simpa [List.append_assoc] using h2
  obtain ⟨e1, e2, e3, e4⟩ := fieldsMHBT_inj h'
  rw [e1, e2, e3, e4]

theorem cacheLookup_delete (c : Cache) (key : String) :
    cacheLookup (cacheDelete c key) key = none := by
  induction c with
  | nil => rfl
  | cons p rest ih =>
    by_cases h : p.1 = key
    · simpa [cacheDelete, List.filter_cons, h] using ih
    · simpa [cacheDelete, List.filter_cons, h, cacheLookup] using ih

/-! ## Edit-distance theory -/

theorem editDistance_nil_left (ys : List Char) : editDistance [] ys = ys.length := by
  simp [editDistance]

theorem editDistance_cons_cons (x y : Char) (xs ys : List Char) :
    editDistance (x :: xs) (y :: ys) =
      min (editDistance xs (y :: ys) + 1)
        (min (editDistance (x :: xs) ys + 1)
          (editDistance xs ys + subCost x y)) := by
  simp [editDistance]

theorem editDistance_nil_right (xs : List Char) : editDistance xs [] = xs.length := by
  cases xs <;> simp [editDistance]

theorem editDistance_concat : ∀ (xs ys : List Char) (x y : Char),
    editDistance (xs ++ [x]) (ys ++ [y]) =
      min (editDistance xs (ys ++ [y]) + 1)
        (min (editDistance (xs ++ [x]) ys + 1)
          (editDistance xs ys + subCost x y))
  | [], [], x, y => by
    simp [editDistance_cons_cons, editDistance_nil_left, editDistance_nil_right]
  | [], b :: bs, x, y => by
    have ih := editDistance_concat [] bs x y
    simp only [List.nil_append, List.cons_append] at ih ⊢
    rw [editDistance_cons_cons x b [] (bs ++ [y]), editDistance_cons_cons x b [] bs, ih]
    simp only [editDistance_nil_left, List.length_cons, List.length_append,
      List.length_nil]
    simp only [← min_add_add_right]
    apply Nat.le_antisymm <;> simp only [le_min_iff, min_le_iff] <;> omega
  | a :: as, [], x, y => by
    have ih := editDistance_concat as [] x y
    simp only [List.nil_append, List.cons_append] at ih ⊢
    rw [editDistance_cons_cons a y (as ++ [x]) [], editDistance_cons_cons a y as [], ih]
    simp only [editDistance_nil_right, List.length_cons, List.length_append,
      List.length_nil]
    simp only [← min_add_add_right]
    apply Nat.le_antisymm <;> simp only [le_min_iff, min_le_iff] <;> omega
  | a :: as, b :: bs, x, y => by
    have ih1 := editDistance_concat as (b :: bs) x y
    have ih2 := editDistance_concat (a :: as) bs x y
    have ih3 := editDistance_concat as bs x y
    simp only [List.cons_append] at ih1 ih2 ih3 ⊢
    rw [editDistance_cons_cons a b (as ++ [x]) (bs ++ [y]),
      editDistance_cons_cons a b as (bs ++ [y]),
      editDistance_cons_cons a b (as ++ [x]) bs,
      editDistance_cons_cons a b as bs, ih1, ih2, ih3]
    simp only [← min_add_add_right]
    apply Nat.le_antisymm <;> simp only [le_min_iff, min_le_iff] <;> omega
termination_by xs ys _ _ => xs.length + ys.length
decreasing_by all_goals simp +arith

theorem levMatrix_zero (s1 s2 : List Char) (i : Nat) : levMatrix s1 s2 0 i = i := rfl

theorem levMatrix_succ_zero (s1 s2 : List Char) (j : Nat) :
    levMatrix s1 s2 (j + 1) 0 = j + 1 := rfl

theorem levMatrix_succ_succ (s1 s2 : List Char) (j i : Nat) :
    levMatrix s1 s2 (j + 1) (i + 1) =
      min (levMatrix s1 s2 (j + 1) i + 1)
        (min (levMatrix s1 s2 j (i + 1) + 1)
          (levMatrix s1 s2 j i + subCost (s1.getD i 'a') (s2.getD j 'a'))) := rfl

theorem take_succ_getD {l : List Char} {i : Nat} (h : i < l.length) :
    l.take (i + 1) = l.take i ++ [l.getD i 'a'] := by
  rw [List.take_succ]
  simp [List.getElem?_eq_getElem h, List.getD_eq_getElem?_getD, Option.getD]

theorem levMatrix_eq (s1 s2 : List Char) :
    ∀ j i, j ≤ s2.length → i ≤ s1.length →
      levMatrix s1 s2 j i = editDistance (s1.take i) (s2.take j)
  | 0, i, _, hi => by
    rw [levMatrix_zero, List.take_zero, editDistance_nil_right,
      List.length_take, Nat.min_eq_left hi]
  | j + 1, 0, hj, _ => by
    rw [levMatrix_succ_zero, List.take_zero, editDistance_nil_left,
      List.length_take, Nat.min_eq_left hj]
  | j + 1, i + 1, hj, hi => by
    have hj' : j < s2.length := hj
    have hi' : i < s1.length := hi
    have e1 := levMatrix_eq s1 s2 (j + 1) i hj (Nat.le_of_succ_le hi)
    have e2 := levMatrix_eq s1 s2 j (i + 1) (Nat.le_of_succ_le hj) hi
    have e3 := levMatrix_eq s1 s2 j i (Nat.le_of_succ_le hj) (Nat.le_of_succ_le hi)
    rw [levMatrix_succ_succ, e1, e2, e3, take_succ_getD hi', take_succ_getD hj',
      editDistance_concat]

theorem levenshteinDistance_eq_editDistance (s1 s2 : List Char) :
    levenshteinDistance s1 s2 = editDistance s1 s2 := by
  have := levMatrix_eq s1 s2 s2.length s1.length (Nat.le_refl _) (Nat.le_refl _)
  simpa [levenshteinDistance, List.take_length] using this

theorem subCost_comm (x y : Char) : subCost x y = subCost y x := by
  simp [subCost, eq_comm]

theorem editDistance_symm : ∀ xs ys : List Char, editDistance xs ys = editDistance ys xs
  | [], ys => by rw [editDistance_nil_left, editDistance_nil_right]
  | x :: xs, [] => by rw [editDistance_nil_left, editDistance_nil_right]
  | x :: xs, y :: ys => by
    rw [editDistance_cons_cons x y, editDistance_cons_cons y x,
      editDistance_symm xs (y :: ys), editDistance_symm (x :: xs) ys,
      editDistance_symm xs ys, subCost_comm]
    apply Nat.le_antisymm <;> simp only [le_min_iff, min_le_iff] <;> omega
termination_by xs ys => xs.length + ys.length
decreasing_by all_goals simp +arith

theorem editDistance_le_max : ∀ xs ys : List Char,
    editDistance xs ys ≤ max xs.length ys.length
  | [], ys => by simp [editDistance_nil_left]
  | x :: xs, [] => by simp [editDistance_nil_right]
  | x :: xs, y :: ys => by
    have ih := editDistance_le_max xs ys
    have hsc : subCost x y ≤ 1 := by simp [subCost]; split <;> omega
    rw [editDistance_cons_cons]
    simp only [List.length_cons]
    omega
termination_by xs ys => xs.length + ys.length
decreasing_by all_goals simp +arith

theorem editDistance_eq_zero : ∀ xs ys : List Char,
    editDistance xs ys = 0 ↔ xs = ys
  | [], ys => by
    rw [editDistance_nil_left]
    simp [List.length_eq_zero, eq_comm]
  | x :: xs, [] => by
    rw [editDistance_nil_right]
    simp
  | x :: xs, y :: ys => by
    have ih := editDistance_eq_zero xs ys
    rw [editDistance_cons_cons]
    by_cases hxy : x = y
    · subst hxy
      have hs : subCost x x = 0 := by simp [subCost]
      rw [hs]
      simp only [Nat.add_zero, List.cons.injEq, true_and]
      constructor
      · intro h
        exact ih.mp (by omega)
      · intro h
        have := ih.mpr h
        omega
    · simp only [subCost, if_neg hxy, List.cons.injEq]
      constructor
      · intro h; omega
      · intro h; exact absurd h.1 hxy
termination_by xs ys => xs.length + ys.length
decreasing_by all_goals simp +arith

theorem string_length_data (s : String) : s.length = s.data.length := rfl

theorem jsToLower_data (s : String) : (jsToLower s).data = s.data.map Char.toLower := rfl

theorem jsToLower_length (s : String) : (jsToLower s).length = s.length := by
  rw [string_length_data, string_length_data, jsToLower_data, List.length_map]

theorem char_toNat_ofNat {k : Nat} (h : k.isValidChar) : (Char.ofNat k).toNat = k := by
  simp [Char.ofNat, h, Char.ofNatAux, Char.toNat, UInt32.toNat, BitVec.toNat_ofNatLt]

theorem char_toLower_eq (c : Char) :
    c.toLower = if c.toNat ≥ 65 ∧ c.toNat ≤ 90 then Char.ofNat (c.toNat + 32) else c := rfl

theorem toLower_toLower (c : Char) : c.toLower.toLower = c.toLower := by
  by_cases h : c.toNat ≥ 65 ∧ c.toNat ≤ 90
  · rw [char_toLower_eq c, if_pos h]
    have hv : (c.toNat + 32).isValidChar := Or.inl (by omega)
    have ht : (Char.ofNat (c.toNat + 32)).toNat = c.toNat + 32 := char_toNat_ofNat hv
    rw [char_toLower_eq, if_neg]
    rw [ht]
    omega
  · rw [char_toLower_eq c, if_neg h, char_toLower_eq c, if_neg h]

theorem jsToLower_idem (s : String) : jsToLower (jsToLower s) = jsToLower s := by
  apply String.ext
  simp [jsToLower_data, List.map_map, Function.comp, toLower_toLower]

/-- C5: the similarity used by the match engine is the normalized classic
Levenshtein distance `1 - editDistance(lower a, lower b) / max(|a|, |b|)`
(the conjunct holds for all strings, the empty/empty case giving `1`);
similarity of two empty strings is `1`; the computation is symmetric and
case-insensitive. -/
theorem similarity_spec :
    (∀ a b : String, calculateSimilarity a b =
      1 - (editDistance (jsToLower a).data (jsToLower b).data : ℚ) /
        ((max a.length b.length : Nat) : ℚ)) ∧
    calculateSimilarity "" "" = 1 ∧
    (∀ a b : String, calculateSimilarity a b = calculateSimilarity b a) ∧
    (∀ a b : String, calculateSimilarity (jsToLower a) (jsToLower b) = calculateSimilarity a b) := by
  have formula : ∀ a b : String, calculateSimilarity a b =
      1 - (editDistance (jsToLower a).data (jsToLower b).data : ℚ) /
        ((max a.length b.length : Nat) : ℚ) := by
    intro a b
    simp only [calculateSimilarity, levenshteinDistance_eq_editDistance]
    by_cases h : max a.length b.length = 0
    · rw [if_pos h, h]
      have ha : a.length = 0 := by omega
      have hb : b.length = 0 := by omega
      rw [string_length_data] at ha hb
      have ha' : a.data = [] := List.length_eq_zero.mp ha
      have hb' : b.data = [] := List.length_eq_zero.mp hb
      simp [jsToLower_data, ha', hb', editDistance_nil_left]
    · rw [if_neg h]
  refine ⟨formula, rfl, fun a b => ?_, fun a b => ?_⟩
  · rw [formula, formula, Nat.max_comm b.length a.length,
      editDistance_symm (jsToLower b).data (jsToLower a).data]
  · rw [formula, formula, jsToLower_idem, jsToLower_idem,
      jsToLower_length, jsToLower_length]

/-- C6: key derivation is a pure function of (identifier, configuration):
deriving the key twice from the same inputs yields the identical result,
and for a non-empty identifier any change to a configuration field
(method, headers, body, ttl) changes the derived key. -/
theorem cache_key_pure_injective (url : String) (o1 o2 : FetchOptions) (h : url ≠ "") :
    mkKey url o1 = mkKey url o1 ∧
    (o1 ≠ o2 → mkKey url o1 ≠ mkKey url o2) := by
  refine ⟨rfl, fun hne hk => hne ?_⟩
  simp [mkKey, h, keyString] at hk
  have hk2 : url.data ++ '|' :: stringifyOptions o1 = url.data ++ '|' :: stringifyOptions o2 :=
    congrArg String.data hk
  have hk3 := List.append_cancel_left hk2
  exact stringifyOptions_inj (by simpa using hk3)

/-- Witness for `cache_key_pure_injective`: changing the method field
changes the key. -/
theorem cache_key_pure_injective_witness :
    mkKey "u" ⟨some "GET", none, none, none⟩ ≠ mkKey "u" ⟨none, none, none, none⟩ :=
  (cache_key_pure_injective "u" ⟨some "GET", none, none, none⟩ ⟨none, none, none, none⟩
    (by decide)).2 (by decide)

/-! ## findBestMatch loop lemmas -/

theorem findBestMatchGo_exact (q : String) (thr : ℚ) (ds : List Destination) :
    ∀ (acc : ScanAcc) (d : Destination),
      ds.find? (fun d' => decide (q ∈ d'.variations)) = some d →
      findBestMatchGo q thr acc ds = ⟨some d.name, 1, true, [], none⟩ := by
  induction ds with
  | nil => intro acc d h; simp at h
  | cons d0 rest ih =>
    intro acc d h
    by_cases hm : q ∈ d0.variations
    · rw [List.find?_cons_of_pos _ (by simpa using hm)] at h
      simp only [Option.some.injEq] at h
      subst h
      simp [findBestMatchGo, hm]
    · rw [List.find?_cons_of_neg _ (by simpa using hm)] at h
      simpa [findBestMatchGo, hm] using ih (scanVariations q thr d0 acc d0.variations) d h

theorem findBestMatchGo_shape (q : String) (thr : ℚ) (ds : List Destination) :
    ∀ acc : ScanAcc,
      ((findBestMatchGo q thr acc ds).isExact = true ∧
       (findBestMatchGo q thr acc ds).hasGoodMatch = none) ∨
      ((findBestMatchGo q thr acc ds).isExact = false ∧
       (findBestMatchGo q thr acc ds).hasGoodMatch =
         some (decide (thr ≤ (findBestMatchGo q thr acc ds).confidence))) := by
  induction ds with
  | nil => intro acc; right; simp [findBestMatchGo]
  | cons d0 rest ih =>
    intro acc
    by_cases hm : q ∈ d0.variations
    · left; simp [findBestMatchGo, hm]
    · have h := ih (scanVariations q thr d0 acc d0.variations)
      simpa [findBestMatchGo, hm] using h

/-! ## C7: exact-match fast path -/

/-- C7: whenever the trimmed, lower-cased query equals a variation of
some record (the `find?` hypothesis picks the first such record, in table
order), `findBestMatch` returns that record's canonical name with
confidence 1, `isExact = true`, and no suggestions. -/
theorem exact_match_fast_path (query : String) (thr : ℚ) (d : Destination)
    (h : destinationsDB.find?
        (fun d' => decide (jsTrim (jsToLower query) ∈ d'.variations)) = some d) :
    findBestMatch query thr =
      { destination := some d.name, confidence := 1, isExact := true,
        suggestions := [], hasGoodMatch := none } :=
  findBestMatchGo_exact (jsTrim (jsToLower query)) thr destinationsDB ⟨none, 0, []⟩ d h

/-- Witness for `exact_match_fast_path` at the spec's example query
`"paris"`. -/
theorem exact_match_fast_path_witness :
    findBestMatch "paris" (6/10) =
      { destination := some "Paris", confidence := 1, isExact := true,
        suggestions := [], hasGoodMatch := none } :=
  exact_match_fast_path "paris" (6/10)
    ⟨"Paris", "France", ["paris", "pariis", "pariz", "parris", "pariss", "parise", "paries"]⟩
    (by decide)

/-! ## C4: the hasGoodMatch field -/

/-- C4 (counterexample): on the exact-match fast path the returned object
carries no `hasGoodMatch` property at all (modelled as `none`), even
though `bestScore` is 1.0 and the claim demands `hasGoodMatch = true`
there. -/
theorem exact_path_omits_hasGoodMatch :
    (findBestMatch "paris" (6/10)).hasGoodMatch = none ∧
    (findBestMatch "paris" (6/10)).isExact = true ∧
    (findBestMatch "paris" (6/10)).confidence = 1 := by
  decide

/-- C4 (amended): on the fuzzy path the MatchResult includes
`hasGoodMatch = (bestScore ≥ threshold)` (with `confidence = bestScore`);
the exact-match fast path omits the field. -/
theorem hasGoodMatch_spec (query : String) (thr : ℚ) :
    ((findBestMatch query thr).isExact = true →
      (findBestMatch query thr).hasGoodMatch = none) ∧
    ((findBestMatch query thr).isExact = false →
      (findBestMatch query thr).hasGoodMatch =
        some (decide (thr ≤ (findBestMatch query thr).confidence))) := by
  have e : findBestMatch query thr =
      findBestMatchGo (jsTrim (jsToLower query)) thr ⟨none, 0, []⟩ destinationsDB := rfl
  rw [e]
  rcases findBestMatchGo_shape (jsTrim (jsToLower query)) thr destinationsDB ⟨none, 0, []⟩ with
    ⟨h1, h2⟩ | ⟨h1, h2⟩
  · exact ⟨fun _ => h2, fun hf => absurd (h1.symm.trans hf) (by simp)⟩
  · exact ⟨fun he => absurd (h1.symm.trans he) (by simp), fun _ => h2⟩

/-- Witness for `hasGoodMatch_spec`: the exact-path conjunct at `"paris"`. -/
theorem hasGoodMatch_spec_witness :
    (findBestMatch "paris" (6/10)).hasGoodMatch = none :=
  (hasGoodMatch_spec "paris" (6/10)).1 (by decide)

/-! ## Dedup and sort lemmas -/

theorem dedupBySeen_sublist {α : Type} (f : α → String) :
    ∀ (l : List α) (seen : List String), List.Sublist (dedupBySeen f seen l) l := by
  intro l
  induction l with
  | nil => intro seen; simp [dedupBySeen]
  | cons s rest ih =>
    intro seen
    by_cases h : f s ∈ seen
    · rw [show dedupBySeen f seen (s :: rest) = dedupBySeen f seen rest from by
        simp [dedupBySeen, h]]
      exact (ih seen).cons s
    · rw [show dedupBySeen f seen (s :: rest) = s :: dedupBySeen f (f s :: seen) rest from by
        simp [dedupBySeen, h]]
      exact (ih (f s :: seen)).cons₂ s

theorem dedupBySeen_nodup {α : Type} (f : α → String) :
    ∀ (l : List α) (seen : List String),
      ((dedupBySeen f seen l).map f).Nodup ∧
      ∀ x ∈ dedupBySeen f seen l, f x ∉ seen := by
  intro l
  induction l with
  | nil => intro seen; simp [dedupBySeen]
  | cons s rest ih =>
    intro seen
    by_cases h : f s ∈ seen
    · rw [show dedupBySeen f seen (s :: rest) = dedupBySeen f seen rest from by
        simp [dedupBySeen, h]]
      exact ih seen
    · rw [show dedupBySeen f seen (s :: rest) = s :: dedupBySeen f (f s :: seen) rest from by
        simp [dedupBySeen, h]]
      obtain ⟨ihn, ihm⟩ := ih (f s :: seen)
      refine ⟨?_, ?_⟩
      · rw [List.map_cons, List.nodup_cons]
        refine ⟨fun hmem => ?_, ihn⟩
        obtain ⟨x, hx, hfx⟩ := List.mem_map.mp hmem
        exact (ihm x hx) (by simp [hfx])
      · intro x hx
        rcases List.mem_cons.mp hx with rfl | hx'
        · exact h
        · exact fun hs => (ihm x hx') (by simp [hs])

theorem sortBySimilarity_sorted (l : List Suggestion) :
    (sortBySimilarity l).Pairwise (fun a b => b.similarity ≤ a.similarity) :=
  List.sorted_insertionSort _ l

theorem sortAutoBySimilarity_sorted (l : List AutoSuggestion) :
    (sortAutoBySimilarity l).Pairwise (fun a b => b.similarity ≤ a.similarity) :=
  List.sorted_insertionSort _ l

theorem finalSuggestions_props (l : List Suggestion) :
    (((dedupBySeen Suggestion.name [] (sortBySimilarity l)).take 3).map Suggestion.name).Nodup ∧
    ((dedupBySeen Suggestion.name [] (sortBySimilarity l)).take 3).Pairwise
      (fun a b => b.similarity ≤ a.similarity) ∧
    ((dedupBySeen Suggestion.name [] (sortBySimilarity l)).take 3).length ≤ 3 := by
  have hd := (dedupBySeen_nodup Suggestion.name (sortBySimilarity l) []).1
  have hsub : List.Sublist ((dedupBySeen Suggestion.name [] (sortBySimilarity l)).take 3)
      (dedupBySeen Suggestion.name [] (sortBySimilarity l)) := List.take_sublist _ _
  refine ⟨?_, ?_, ?_⟩
  · exact List.Nodup.sublist (hsub.map Suggestion.name) hd
  · exact List.Pairwise.sublist hsub
      (List.Pairwise.sublist (dedupBySeen_sublist Suggestion.name (sortBySimilarity l) [])
        (sortBySimilarity_sorted l))
  · exact List.length_take_le _ _

theorem autoSuggestions_props (l : List AutoSuggestion) (limit : Nat) :
    (((sortAutoBySimilarity (dedupBySeen AutoSuggestion.name [] l)).take limit).map
        AutoSuggestion.name).Nodup ∧
    ((sortAutoBySimilarity (dedupBySeen AutoSuggestion.name [] l)).take limit).Pairwise
      (fun a b => b.similarity ≤ a.similarity) ∧
    ((sortAutoBySimilarity (dedupBySeen AutoSuggestion.name [] l)).take limit).length ≤ limit := by
  have hd := (dedupBySeen_nodup AutoSuggestion.name l []).1
  have hperm : List.Perm (sortAutoBySimilarity (dedupBySeen AutoSuggestion.name [] l))
      (dedupBySeen AutoSuggestion.name [] l) := List.perm_insertionSort _ _
  have hsorted_nodup : ((sortAutoBySimilarity (dedupBySeen AutoSuggestion.name [] l)).map
      AutoSuggestion.name).Nodup := (List.Perm.nodup_iff (hperm.map _)).mpr hd
  have hsub : List.Sublist ((sortAutoBySimilarity (dedupBySeen AutoSuggestion.name [] l)).take limit)
      (sortAutoBySimilarity (dedupBySeen AutoSuggestion.name [] l)) := List.take_sublist _ _
  refine ⟨?_, ?_, ?_⟩
  · exact List.Nodup.sublist (hsub.map AutoSuggestion.name) hsorted_nodup
  · exact List.Pairwise.sublist hsub (sortAutoBySimilarity_sorted _)
  · exact List.length_take_le _ _

theorem findBestMatchGo_suggestions (q : String) (thr : ℚ) (ds : List Destination) :
    ∀ acc : ScanAcc,
      (findBestMatchGo q thr acc ds).suggestions = [] ∨
      ∃ l : List Suggestion, (findBestMatchGo q thr acc ds).suggestions =
        (dedupBySeen Suggestion.name [] (sortBySimilarity l)).take 3 := by
  induction ds with
  | nil => intro acc; right; exact ⟨acc.suggestions, rfl⟩
  | cons d0 rest ih =>
    intro acc
    by_cases hm : q ∈ d0.variations
    · left; simp [findBestMatchGo, hm]
    · have h := ih (scanVariations q thr d0 acc d0.variations)
      simpa [findBestMatchGo, hm] using h

/-! ## C8: suggestion-list invariants -/

/-- C8: every suggestion list returned to a caller — by `findBestMatch`
(at most 3 entries) and by `getDestinationSuggestions` (at most `limit`
entries) — has pairwise-distinct canonical names and is ordered by
descending similarity. -/
theorem suggestion_lists_invariant :
    (∀ (q : String) (thr : ℚ),
      (((findBestMatch q thr).suggestions.map Suggestion.name).Nodup ∧
       (findBestMatch q thr).suggestions.Pairwise (fun a b => b.similarity ≤ a.similarity) ∧
       (findBestMatch q thr).suggestions.length ≤ 3)) ∧
    (∀ (q : String) (lim : Nat),
      (((getDestinationSuggestions q lim).map AutoSuggestion.name).Nodup ∧
       (getDestinationSuggestions q lim).Pairwise (fun a b => b.similarity ≤ a.similarity) ∧
       (getDestinationSuggestions q lim).length ≤ lim)) := by
  constructor
  · intro q thr
    have e : findBestMatch q thr =
        findBestMatchGo (jsTrim (jsToLower q)) thr ⟨none, 0, []⟩ destinationsDB := rfl
    rw [e]
    rcases findBestMatchGo_suggestions (jsTrim (jsToLower q)) thr destinationsDB ⟨none, 0, []⟩ with
      h | ⟨l, h⟩
    · rw [h]; simp
    · rw [h]; exact finalSuggestions_props l
  · intro q lim
    have e : getDestinationSuggestions q lim =
        if (jsTrim (jsToLower q)).length < 2 then []
        else (sortAutoBySimilarity (dedupBySeen AutoSuggestion.name []
          (getSuggestionsGo (jsTrim (jsToLower q)) destinationsDB))).take lim := rfl
    rw [e]
    by_cases hq : (jsTrim (jsToLower q)).length < 2
    · rw [if_pos hq]; simp
    · rw [if_neg hq]; exact autoSuggestions_props _ lim

/-! ## Similarity bounds and lower-case fixed points -/

theorem calculateSimilarity_le_one (a b : String) : calculateSimilarity a b ≤ 1 := by
  simp only [calculateSimilarity]
  split
  · exact le_refl 1
  · have hnn : (0 : ℚ) ≤ (levenshteinDistance (jsToLower a).data (jsToLower b).data : ℚ) /
        ((max a.length b.length : Nat) : ℚ) :=
      div_nonneg (Nat.cast_nonneg _) (Nat.cast_nonneg _)
    exact sub_le_self 1 hnn

theorem calculateSimilarity_eq_one {a b : String} (h : calculateSimilarity a b = 1) :
    (jsToLower a).data = (jsToLower b).data := by
  simp only [calculateSimilarity] at h
  split at h
  · rename_i hmax
    have ha : a.length = 0 := by omega
    have hb : b.length = 0 := by omega
    rw [string_length_data] at ha hb
    rw [jsToLower_data, jsToLower_data, List.length_eq_zero.mp ha, List.length_eq_zero.mp hb]
  · rename_i hmax
    have hdz : (levenshteinDistance (jsToLower a).data (jsToLower b).data : ℚ) /
        ((max a.length b.length : Nat) : ℚ) = 0 := by linarith
    have hmq : ((max a.length b.length : Nat) : ℚ) ≠ 0 := Nat.cast_ne_zero.mpr hmax
    rcases div_eq_zero_iff.mp hdz with hz | hz
    · have : levenshteinDistance (jsToLower a).data (jsToLower b).data = 0 :=
        Nat.cast_eq_zero.mp hz
      rw [levenshteinDistance_eq_editDistance] at this
      exact (editDistance_eq_zero _ _).mp this
    · exact absurd hz hmq

theorem calculateSimilarity_lt_one {a b : String}
    (h : (jsToLower a).data ≠ (jsToLower b).data) : calculateSimilarity a b < 1 :=
  lt_of_le_of_ne (calculateSimilarity_le_one a b) (fun he => h (calculateSimilarity_eq_one he))

/-- Every variation string stored in the reference table is already
lower-cased (checked over the whole table). -/
theorem destinationsDB_lower :
    ∀ d ∈ destinationsDB, ∀ v ∈ d.variations, jsToLower v = v := by
  decide

theorem mem_jsTrim_data {c : Char} {s : String} (h : c ∈ (jsTrim s).data) : c ∈ s.data := by
  simp only [jsTrim, List.mem_reverse] at h
  have h1 := (List.dropWhile_sublist (l := (s.data.dropWhile Char.isWhitespace).reverse)
    (p := Char.isWhitespace)).subset h
  rw [List.mem_reverse] at h1
  exact (List.dropWhile_sublist (l := s.data) (p := Char.isWhitespace)).subset h1

theorem jsToLower_jsTrim_jsToLower (s : String) :
    jsToLower (jsTrim (jsToLower s)) = jsTrim (jsToLower s) := by
  apply String.ext
  rw [jsToLower_data]
  have hmem : ∀ c ∈ (jsTrim (jsToLower s)).data, Char.toLower c = c := by
    intro c hc
    have hc' := mem_jsTrim_data hc
    rw [jsToLower_data] at hc'
    obtain ⟨c0, _, rfl⟩ := List.mem_map.mp hc'
    exact toLower_toLower c0
  calc (jsTrim (jsToLower s)).data.map Char.toLower
      = (jsTrim (jsToLower s)).data.map id := List.map_congr_left hmem
    _ = (jsTrim (jsToLower s)).data := List.map_id _

theorem sim_lt_one_of_not_exact {q : String} (hq : jsToLower q = q) {d : Destination}
    (hd : d ∈ destinationsDB) (hnm : q ∉ d.variations) :
    ∀ v ∈ d.variations, calculateSimilarity q v < 1 := by
  intro v hv
  apply calculateSimilarity_lt_one
  intro hdata
  have hvl : jsToLower v = v := destinationsDB_lower d hd v hv
  rw [hq, hvl] at hdata
  exact hnm ((String.ext hdata) ▸ hv)

theorem scanVariations_lt_one (q : String) (thr : ℚ) (d : Destination) :
    ∀ (vs : List String) (acc : ScanAcc),
      (∀ v ∈ vs, calculateSimilarity q v < 1) →
      acc.bestScore < 1 →
      (∀ s ∈ acc.suggestions, s.similarity < 1) →
      (scanVariations q thr d acc vs).bestScore < 1 ∧
      ∀ s ∈ (scanVariations q thr d acc vs).suggestions, s.similarity < 1 := by
  intro vs
  induction vs with
  | nil => intro acc _ h1 h2; exact ⟨h1, h2⟩
  | cons v vs ih =>
    intro acc hv h1 h2
    have hsim : calculateSimilarity q v < 1 := hv v (by simp)
    have hvs : ∀ x ∈ vs, calculateSimilarity q x < 1 := fun x hx => hv x (by simp [hx])
    simp only [scanVariations]
    by_cases hb : acc.bestScore < calculateSimilarity q v
    · by_cases hp : thr ≤ calculateSimilarity q v ∧ calculateSimilarity q v < 1
      · simp only [hb, hp, if_true, and_self, ite_true]
        apply ih _ hvs (by simpa using hsim)
        intro s hs
        simp only [List.mem_append, List.mem_singleton] at hs
        rcases hs with hs | rfl
        · exact h2 s (by simpa using hs)
        · simpa using hsim
      · simp only [hb, hp, if_true, ite_true, ite_false, if_neg, not_false_iff]
        apply ih _ hvs (by simpa using hsim)
        intro s hs
        exact h2 s (by simpa using hs)
    · by_cases hp : thr ≤ calculateSimilarity q v ∧ calculateSimilarity q v < 1
      · rw [if_neg hb, if_pos hp]
        apply ih _ hvs (by simpa using h1)
        intro s hs
        simp only [List.mem_append, List.mem_singleton] at hs
        rcases hs with hs | rfl
        · exact h2 s (by simpa using hs)
        · simpa using hsim
      · rw [if_neg hb, if_neg hp]
        exact ih _ hvs h1 h2

theorem findBestMatchGo_lt_one (q : String) (thr : ℚ) (hq : jsToLower q = q) :
    ∀ ds : List Destination, (∀ d ∈ ds, d ∈ destinationsDB) →
    ∀ acc : ScanAcc, acc.bestScore < 1 →
      (∀ s ∈ acc.suggestions, s.similarity < 1) →
      (findBestMatchGo q thr acc ds).isExact = false →
      (findBestMatchGo q thr acc ds).confidence < 1 ∧
      ∀ s ∈ (findBestMatchGo q thr acc ds).suggestions, s.similarity < 1 := by
  intro ds
  induction ds with
  | nil =>
    intro _ acc h1 h2 _
    refine ⟨h1, ?_⟩
    intro s hs
    have hs1 : s ∈ dedupBySeen Suggestion.name [] (sortBySimilarity acc.suggestions) :=
      (List.take_sublist 3 _).subset hs
    have hs2 : s ∈ sortBySimilarity acc.suggestions :=
      (dedupBySeen_sublist Suggestion.name (sortBySimilarity acc.suggestions) []).subset hs1
    have hs3 : s ∈ acc.suggestions := (List.perm_insertionSort _ _).subset hs2
    exact h2 s hs3
  | cons d0 rest ih =>
    intro hdb acc h1 h2 hex
    by_cases hm : q ∈ d0.variations
    · exfalso
      simp [findBestMatchGo, hm] at hex
    · have hsims := sim_lt_one_of_not_exact hq (hdb d0 (by simp)) hm
      have hscan := scanVariations_lt_one q thr d0 d0.variations acc hsims h1 h2
      have hex' : (findBestMatchGo q thr (scanVariations q thr d0 acc d0.variations) rest).isExact = false := by
        simpa [findBestMatchGo, hm] using hex
      have := ih (fun d hd => hdb d (by simp [hd])) (scanVariations q thr d0 acc d0.variations)
        hscan.1 hscan.2 hex'
      simpa [findBestMatchGo, hm] using this

/-! ## C10: confidence 1.0 only from the exact path -/

/-- C10: whenever `findBestMatch` returns with `isExact = false`, its
confidence is strictly below 1 and every returned suggestion's similarity
is strictly below 1 (relying on the table's variations being stored
lower-cased); confidence 1.0 can only come from the exact-match path. -/
theorem non_exact_confidence_lt_one (query : String) (thr : ℚ)
    (h : (findBestMatch query thr).isExact = false) :
    (findBestMatch query thr).confidence < 1 ∧
    ∀ s ∈ (findBestMatch query thr).suggestions, s.similarity < 1 := by
  have e : findBestMatch query thr =
      findBestMatchGo (jsTrim (jsToLower query)) thr ⟨none, 0, []⟩ destinationsDB := rfl
  rw [e] at h ⊢
  exact findBestMatchGo_lt_one (jsTrim (jsToLower query)) thr
    (jsToLower_jsTrim_jsToLower query) destinationsDB (fun d hd => hd) ⟨none, 0, []⟩
    (by norm_num) (by simp) h

/-- Witness for `non_exact_confidence_lt_one` at the concrete non-exact
query `"zz"`. -/
theorem non_exact_confidence_lt_one_witness :
    (findBestMatch "zz" 2).isExact = false ∧ (findBestMatch "zz" 2).confidence < 1 :=
  ⟨by with_unfolding_all decide, (non_exact_confidence_lt_one "zz" 2 (by with_unfolding_all decide)).1⟩

/-! ## C9: cancellation silence -/

/-- C9: a cancelled request's failure (an `AbortError`) is fully
absorbed: it never sets the session's visible error and never writes
data into session state. -/
theorem cancelled_request_silent (s : Session) (tok : Nat) (msg : String) :
    (applyFailure s tok true msg).error = s.error ∧
    (applyFailure s tok true msg).data = s.data := by
  constructor <;> rfl

/-! ## C1: race safety of late completions -/

/-- C1 (counterexample): generations g1 = 1 and g2 = 2 are both in
flight; g2 resolves successfully, then g1 fails (not a cancellation)
while the session's highest-issued generation is 2.  The stale failure
still surfaces its error message, so the final visible state does not
reflect only g2's outcome, refuting the claim that the error is surfaced
only if the failing generation is still the highest. -/
theorem late_failure_surfaces_stale_error :
    (fetchStart [] "u" {} 1000 ⟨none, false, none, 0⟩).2 = some 1 ∧
    (fetchStart [] "u" {} 1001 (fetchStart [] "u" {} 1000 ⟨none, false, none, 0⟩).1).2 = some 2 ∧
    (applyFailure
      (applySuccess [] (fetchStart [] "u" {} 1001 (fetchStart [] "u" {} 1000 ⟨none, false, none, 0⟩).1).1
        2 "ok" (keyString "u" {}) 1002).2
      1 false "HTTP 500 - err") =
      ⟨some "ok", false, some "HTTP 500 - err", 2⟩ := by
  decide

/-- C1 (amended): `data` and `loading` are generation-gated — a
completion whose generation is no longer the session's highest leaves
them (and, on success, `error`) unchanged, and the newest generation's
success applies its payload and clears `loading` — but a non-cancellation
failure surfaces its error message unconditionally, even when its
generation is stale. -/
theorem race_safety_generation_gated (c : Cache) (s : Session) (tok : Nat)
    (payload key msg : String) (now : Nat) (h : tok ≠ s.fetchToken) :
    ((applySuccess c s tok payload key now).2.data = s.data ∧
     (applySuccess c s tok payload key now).2.loading = s.loading ∧
     (applySuccess c s tok payload key now).2.error = s.error) ∧
    ((applyFailure s tok false msg).data = s.data ∧
     (applyFailure s tok false msg).loading = s.loading ∧
     (applyFailure s tok false msg).error = some msg) ∧
    ((applySuccess c { s with fetchToken := tok } tok payload key now).2.data = some payload ∧
     (applySuccess c { s with fetchToken := tok } tok payload key now).2.loading = false) := by
  have h' : ¬ s.fetchToken = tok := fun e => h e.symm
  simp [applySuccess, applyFailure, h']

/-- Witness for `race_safety_generation_gated` at a concrete stale
completion. -/
theorem race_safety_generation_gated_witness :
    (applyFailure ⟨some "ok", false, none, 2⟩ 1 false "HTTP 500 - err").error = some "HTTP 500 - err" :=
  (race_safety_generation_gated [] ⟨some "ok", false, none, 2⟩ 1 "p" "k" "HTTP 500 - err" 0
    (by decide)).2.1.2.2

/-! ## C2: cache freshness -/

/-- C2 (counterexample): a resolve that hits a fresh cache entry sets
`data` and clears `loading` synchronously, but it does not set `error`
to `null` — a previously surfaced error survives the cache hit, refuting
the claimed `{data, loading:false, error:null}`. -/
theorem fresh_hit_preserves_error :
    fetchStart [(keyString "u" {}, ⟨"cached", 1000⟩)] "u" {} 1001 ⟨none, false, some "boom", 7⟩ =
      (⟨some "cached", false, some "boom", 8⟩, none) := by
  decide

/-- C2 (amended): on a resolve with a non-empty identifier, a cache entry
younger than the staleness bound is served synchronously — `data` is set
to the payload and `loading` cleared, `error` left unchanged — and no
network call is issued; an absent or stale entry leads to a network call
with `loading` set and `error` cleared. -/
theorem resolve_freshness (c : Cache) (url : String) (o : FetchOptions)
    (now : Nat) (s : Session) (h : url ≠ "") :
    (∀ e, cacheLookup c (keyString url o) = some e →
      (now - e.timestamp < jsTtl o →
        fetchStart c url o now s =
          ({ s with fetchToken := s.fetchToken + 1, data := some e.payload, loading := false }, none)) ∧
      (¬ now - e.timestamp < jsTtl o →
        fetchStart c url o now s =
          ({ s with fetchToken := s.fetchToken + 1, loading := true, error := none },
            some (s.fetchToken + 1)))) ∧
    (cacheLookup c (keyString url o) = none →
      fetchStart c url o now s =
        ({ s with fetchToken := s.fetchToken + 1, loading := true, error := none },
          some (s.fetchToken + 1))) := by
  refine ⟨fun e he => ⟨fun hf => ?_, fun hf => ?_⟩, fun hn => ?_⟩
  · simp [fetchStart, mkKey, h, he, hf]
  · simp [fetchStart, mkKey, h, he, hf]
  · simp [fetchStart, mkKey, h, hn]

/-- Witness for `resolve_freshness`: a fresh hit is served from the cache
with no network call. -/
theorem resolve_freshness_witness :
    fetchStart [(keyString "u" {}, ⟨"cached", 1000⟩)] "u" {} 1001 ⟨none, true, none, 0⟩ =
      (⟨some "cached", false, none, 1⟩, none) :=
  ((resolve_freshness [(keyString "u" {}, ⟨"cached", 1000⟩)] "u" {} 1001 ⟨none, true, none, 0⟩
      (by decide)).1 ⟨"cached", 1000⟩ (by decide)).1 (by decide)

/-! ## C3: invalidation round trip -/

/-- C3: after a resolve stores a cache entry for the key, `refetch`'s
invalidation removes it, and the forced new resolve cycle (the re-run
`fetchNow`) misses the cache and issues a fresh network call. -/
theorem invalidate_roundtrip (c : Cache) (s s' : Session) (url : String)
    (o : FetchOptions) (now now' : Nat) (payload : String) (tok : Nat)
    (h : url ≠ "") :
    cacheLookup (applySuccess c s tok payload (keyString url o) now).1 (keyString url o) =
      some ⟨payload, now⟩ ∧
    (fetchStart (refetchInvalidate (applySuccess c s tok payload (keyString url o) now).1 url o)
        url o now' s').2 = some (s'.fetchToken + 1) := by
  constructor
  · simp [applySuccess, cacheInsert, cacheLookup]
  · simp [refetchInvalidate, mkKey, h, fetchStart, cacheLookup_delete]

/-- Witness for `invalidate_roundtrip` at a concrete populated cache. -/
theorem invalidate_roundtrip_witness :
    (fetchStart (refetchInvalidate (applySuccess [] ⟨none, true, none, 1⟩ 1 "pay" (keyString "u" {}) 50).1 "u" {})
        "u" {} 60 ⟨some "pay", false, none, 1⟩).2 = some 2 :=
  (invalidate_roundtrip [] ⟨none, true, none, 1⟩ ⟨some "pay", false, none, 1⟩ "u" {} 50 60 "pay" 1
    (by decide)).2

end TravelWise
